import Mathlib

/-!
# Verification of the ar-figma-tokens core

A shallow embedding of the design-token tree engine and the cross-collection
variable migration engine of the repository, with theorems settling the
specification claims.

The repository contains several near-duplicate variants of the same logic.
We embed the two variants the claims cite:

* `TreeBuilder` — the `treeBuilder.ts` module (tree construction, filtering,
  collapse toggling, tri-state checkbox propagation) and the service module
  `variablesService.ts` (`Svc` namespace: duplicate-check-only move, first
  value to first target mode, sequential batch).
* `CodeJs` — the `code.js` variant: two-pass `buildTree` with a `parentPath`
  node map, and `swapVariableCollection` with mode-compatibility validation
  and full mode-mapped value transfer.

JavaScript data structures are modelled as follows: a `Map` or plain object
used as a string-keyed dictionary becomes an insertion-ordered association
list (`objSet` overwrites in place, a new key is appended at the end, as both
`Map.prototype.set` and object assignment do); an absent object property
(`undefined`) becomes `none`; thrown `Error`s become `Except.error` values;
the mutable external variable store becomes an explicit `Store` value that is
threaded through and returned by every operation.
-/

/-- Lookup in an insertion-ordered association list (models `Map.prototype.get`
and object property read: first — and only, keys are unique — binding wins). -/
def lookupAssoc {α : Type} (m : List (String × α)) (k : String) : Option α :=
  (m.find? (fun kv => kv.1 == k)).map (fun kv => kv.2)

/-!
The JavaScript string primitives the code uses (`split`, `trim`,
`toLowerCase`, `includes`) are modelled over the character list of the
string, by structural recursion, so that every definition evaluates inside
the kernel (the core-library `String` versions are position-based and do not
reduce definitionally).
-/

/-- `String.prototype.split(sep)` for a one-character separator. -/
def jsSplit (sep : Char) (s : String) : List String :=
  jsSplitAux sep s.data []
where
  jsSplitAux (sep : Char) : List Char → List Char → List String
    | [], acc => [String.mk acc.reverse]
    | c :: cs, acc =>
      if c == sep then String.mk acc.reverse :: jsSplitAux sep cs []
      else jsSplitAux sep cs (c :: acc)

/-- `String.prototype.trim`: strip leading and trailing whitespace. -/
def jsTrim (s : String) : String :=
  String.mk (((s.data.dropWhile Char.isWhitespace).reverse.dropWhile
    Char.isWhitespace).reverse)

/-- `String.prototype.toLowerCase`. -/
def jsToLower (s : String) : String :=
  String.mk (s.data.map Char.toLower)

/-- Does `pre` lead `cs`? (helper of `strContains`). -/
def charsLead : List Char → List Char → Bool
  | [], _ => true
  | _ :: _, [] => false
  | p :: ps, c :: cs => p == c && charsLead ps cs

/-- `String.prototype.includes`: `pat` occurs contiguously in `s`. -/
def strContains (s pat : String) : Bool :=
  strContainsAux s.data pat.data
where
  strContainsAux : List Char → List Char → Bool
    | cs, pat =>
      charsLead pat cs ||
        match cs with
        | [] => false
        | _ :: rest => strContainsAux rest pat

/-- The `TreeNode` record of `custom.ts`.  `children` is `none` when the
JavaScript object lacks the property (leaves), `some cs` when it holds an
array (`some []` is a present-but-empty array, which is truthy in JS).
`ntype` carries the JS string tag, `"group"` or `"variable"`.  `parentPath`
is the extra field the `code.js` build adds to its nodes (absent elsewhere). -/
inductive TreeNode : Type where
  | mk (id name ntype : String) (level : Nat)
       (collapsed checked indeterminate : Bool)
       (variableId : Option String)
       (parentPath : Option String)
       (children : Option (List TreeNode)) : TreeNode
deriving Repr

def TreeNode.id : TreeNode → String
  | .mk i _ _ _ _ _ _ _ _ _ => i

def TreeNode.name : TreeNode → String
  | .mk _ nm _ _ _ _ _ _ _ _ => nm

def TreeNode.ntype : TreeNode → String
  | .mk _ _ t _ _ _ _ _ _ _ => t

def TreeNode.level : TreeNode → Nat
  | .mk _ _ _ l _ _ _ _ _ _ => l

def TreeNode.collapsed : TreeNode → Bool
  | .mk _ _ _ _ c _ _ _ _ _ => c

def TreeNode.checked : TreeNode → Bool
  | .mk _ _ _ _ _ ch _ _ _ _ => ch

def TreeNode.indeterminate : TreeNode → Bool
  | .mk _ _ _ _ _ _ ind _ _ _ => ind

def TreeNode.variableId : TreeNode → Option String
  | .mk _ _ _ _ _ _ _ v _ _ => v

def TreeNode.parentPath : TreeNode → Option String
  | .mk _ _ _ _ _ _ _ _ pp _ => pp

def TreeNode.children : TreeNode → Option (List TreeNode)
  | .mk _ _ _ _ _ _ _ _ _ cs => cs

/-- The `VariableData` record of `custom.ts` (value payloads are irrelevant
to the tree engine, so only `id` and `name` are carried here). -/
structure VariableData where
  id : String
  name : String
deriving Repr, DecidableEq

namespace TreeBuilder

/-- `treeBuilder.ts` / `code.ts` variant of `buildTree`, inner loop.
Walks the slash-separated `parts` of one variable name, maintaining the
current sibling-level `Map` (`level`).  Mirrors the JS exactly: a new node is
inserted into `level` (which aliases `root` only while `atRoot`); descending
into a group rebuilds a **fresh** `Map` from the group's `children` array, so
insertions at deeper levels never reach any `children` array.  Fields:
remaining parts, current segment index `idx`, accumulated `path`, the root
map, the current-level map, and whether the current level is the root map. -/
def insertParts (vid : String) :
    List String → Nat → String → List (String × TreeNode) →
    List (String × TreeNode) → Bool → List (String × TreeNode)
  | [], _, _, root, _, _ => root
  | part :: rest, idx, path, root, level, atRoot =>
    let path1 := path ++ (if path == "" then "" else "/") ++ part
    let isLeaf := rest == []
    let level1 :=
      if (lookupAssoc level path1).isNone then
        level ++ [(path1,
          TreeNode.mk path1 part (if isLeaf then "variable" else "group") idx
            true false false (if isLeaf then some vid else none) none
            (if isLeaf then none else some []))]
      else level
    let root1 := if atRoot then level1 else root
    match lookupAssoc level1 path1 with
    | none => root1
    | some currentNode =>
      if isLeaf then
        insertParts vid rest (idx + 1) path1 root1 level1 atRoot
      else
        match currentNode.children with
        | some cs =>
          insertParts vid rest (idx + 1) path1 root1
            (cs.map (fun c => (c.id, c))) false
        | none =>
          insertParts vid rest (idx + 1) path1 root1 level1 atRoot

mutual

/-- `flattenNode` of `treeBuilder.ts`: rebuilds a group node with recursively
rebuilt children; any other node is returned as is. -/
def flattenNode (node : TreeNode) : TreeNode :=
  match node with
  | .mk i nm t l c ch ind v pp (some cs) =>
    if t == "group" then .mk i nm t l c ch ind v pp (some (flattenForest cs))
    else .mk i nm t l c ch ind v pp (some cs)
  | .mk i nm t l c ch ind v pp none => .mk i nm t l c ch ind v pp none

def flattenForest : List TreeNode → List TreeNode
  | [] => []
  | n :: rest => flattenNode n :: flattenForest rest

end

/-- `buildTree` of `treeBuilder.ts` (also verbatim in the single-file
variants): per variable, split the name on `/` and walk/create the path with
`insertParts`; finally `Array.from(root.values()).map(flattenNode)`. -/
def buildTree (vars : List VariableData) : List TreeNode :=
  let root := vars.foldl
    (fun root v => insertParts v.id (jsSplit '/' v.name) 0 "" root root true) []
  flattenForest (root.map (fun kv => kv.2))

mutual

/-- `matchNode` inside `filterTree`: a variable survives iff its lowercased
`id` contains the query (`nameMatches`); a group survives iff a surviving
child exists (`matchedChildren`, the empty list when the `children` property
is absent) or its own id matches, and is then rebuilt with only the
surviving children and `collapsed := false`. -/
def matchNode (lq : String) (node : TreeNode) : Option TreeNode :=
  match node with
  | .mk i nm t l c ch ind v pp (some cs) =>
    if t == "variable" then
      if strContains (jsToLower i) lq then
        some (.mk i nm t l c ch ind v pp (some cs))
      else none
    else
      if !(filterForest lq cs).isEmpty || strContains (jsToLower i) lq then
        some (.mk i nm t l false ch ind v pp (some (filterForest lq cs)))
      else none
  | .mk i nm t l c ch ind v pp none =>
    if t == "variable" then
      if strContains (jsToLower i) lq then
        some (.mk i nm t l c ch ind v pp none)
      else none
    else
      if !(([] : List TreeNode)).isEmpty || strContains (jsToLower i) lq then
        some (.mk i nm t l false ch ind v pp (some []))
      else none

def filterForest (lq : String) : List TreeNode → List TreeNode
  | [] => []
  | n :: rest =>
    match matchNode lq n with
    | some m => m :: filterForest lq rest
    | none => filterForest lq rest

end

/-- `filterTree` of `treeBuilder.ts`: whitespace-only queries are a no-op,
otherwise case-insensitive substring filtering via `matchNode`. -/
def filterTree (tree : List TreeNode) (query : String) : List TreeNode :=
  if jsTrim query == "" then tree
  else filterForest (jsToLower query) tree

mutual

/-- `updateAllChildren` of `treeBuilder.ts`: set `checked` on every node of
the subtrees, force `indeterminate := false` (the mapped per-child lambda is
`updateAllOne`). -/
def updateAllChildren : List TreeNode → Bool → List TreeNode
  | [], _ => []
  | n :: rest, checked => updateAllOne n checked :: updateAllChildren rest checked

/-- The per-child update of `updateAllChildren`: copy the child with the new
`checked`, `indeterminate := false`, and the recursively updated children
(`undefined`, i.e. `none`, stays absent). -/
def updateAllOne (child : TreeNode) (checked : Bool) : TreeNode :=
  match child with
  | .mk i nm t l c _ _ v pp (some cs) =>
    .mk i nm t l c checked false v pp (some (updateAllChildren cs checked))
  | .mk i nm t l c _ _ v pp none => .mk i nm t l c checked false v pp none

/-- `updateNodeChecked` of `treeBuilder.ts`, mapped over a node list. -/
def updateNodeChecked : List TreeNode → String → Bool → List TreeNode
  | [], _, _ => []
  | n :: rest, nodeId, checked =>
    updateNodeOne n nodeId checked :: updateNodeChecked rest nodeId checked

/-- One node of `updateNodeChecked`: the target gets `checked` and
`indeterminate := false` and its whole subtree set; any other node with a
`children` array recurses and then recomputes its own two flags from the
updated children (`checkedCount`/`indeterminateCount`); leaves are left. -/
def updateNodeOne (node : TreeNode) (nodeId : String) (checked : Bool) : TreeNode :=
  match node with
  | .mk i nm t l c _ch _ind v pp (some cs) =>
    if i == nodeId then
      .mk i nm t l c checked false v pp (some (updateAllChildren cs checked))
    else
      let updatedChildren := updateNodeChecked cs nodeId checked
      let checkedCount := (updatedChildren.filter (fun x => x.checked)).length
      let indeterminateCount :=
        (updatedChildren.filter (fun x => x.indeterminate)).length
      .mk i nm t l c (checkedCount == updatedChildren.length)
        ((decide (0 < checkedCount) && decide (checkedCount < updatedChildren.length))
          || decide (0 < indeterminateCount))
        v pp (some updatedChildren)
  | .mk i nm t l c ch ind v pp none =>
    if i == nodeId then .mk i nm t l c checked false v pp none
    else .mk i nm t l c ch ind v pp none

end

mutual

/-- `toggleNodeCollapsed` of `treeBuilder.ts`, mapped over a node list. -/
def toggleNodeCollapsed : List TreeNode → String → List TreeNode
  | [], _ => []
  | n :: rest, nodeId => toggleOne n nodeId :: toggleNodeCollapsed rest nodeId

/-- One node of `toggleNodeCollapsed`: flip `collapsed` on the id match
(children untouched), otherwise recurse into a present `children` array. -/
def toggleOne (node : TreeNode) (nodeId : String) : TreeNode :=
  match node with
  | .mk i nm t l c ch ind v pp none =>
    if i == nodeId then .mk i nm t l (!c) ch ind v pp none
    else .mk i nm t l c ch ind v pp none
  | .mk i nm t l c ch ind v pp (some cs) =>
    if i == nodeId then .mk i nm t l (!c) ch ind v pp (some cs)
    else .mk i nm t l c ch ind v pp (some (toggleNodeCollapsed cs nodeId))

end

end TreeBuilder

namespace CodeJs

/-- Input record for the `code.js` build: that variant guards against
variables whose `name` property is missing or not a string, so the name is
optional here. -/
structure JVariable where
  id : String
  name : Option String
deriving Repr, DecidableEq

/-- First pass of the `code.js` `buildTree`: walk the parts of one variable
name with index `j`, skipping empty or whitespace-only parts, and add one
node per not-yet-seen path to the insertion-ordered `nodeMap`.  Groups get an
empty `children` array, leaves get the `variableId`; `parentPath` records the
path accumulated before this part (`null`, i.e. `none`, when empty). -/
def addParts (vid : String) :
    List String → Nat → String → List (String × TreeNode) →
    List (String × TreeNode)
  | [], _, _, m => m
  | part :: rest, j, path, m =>
    if part == "" || jsTrim part == "" then
      addParts vid rest (j + 1) path m
    else
      let parentPath := path
      let path1 := path ++ (if path == "" then "" else "/") ++ part
      let isLeaf := rest == []
      let m1 :=
        if (lookupAssoc m path1).isNone then
          m ++ [(path1,
            TreeNode.mk path1 part (if isLeaf then "variable" else "group") j
              true false false (if isLeaf then some vid else none)
              (if parentPath == "" then none else some parentPath)
              (if isLeaf then none else some []))]
        else m
      addParts vid rest (j + 1) path1 m1

/-- Children pushed to a parent in the second pass: the `nodeMap` entries, in
insertion order, whose `parentPath` is the parent's path. -/
def nodeChildren (m : List (String × TreeNode)) (pid : String) : List TreeNode :=
  (m.filter (fun kv => kv.2.parentPath == some pid)).map (fun kv => kv.2)

/-- Roots collected by the second pass: nodes with no `parentPath`, plus
orphans whose recorded parent is not in the map. -/
def rootNodes (m : List (String × TreeNode)) : List TreeNode :=
  (m.filter (fun kv =>
    match kv.2.parentPath with
    | none => true
    | some pp => (lookupAssoc m pp).isNone)).map (fun kv => kv.2)

/-- Materialises the reference graph the second pass builds by pushing child
node references into parent `children` arrays: a node keeps `children = none`
only if it was created as a leaf and nothing was pushed into it (the code
creates a missing `children` array on demand before pushing).  `fuel` bounds
the recursion; `buildTree` passes the map size, which bounds the tree depth
since every child path strictly extends its parent path. -/
def materialize (m : List (String × TreeNode)) : Nat → TreeNode → TreeNode
  | 0, n => n
  | fuel + 1, n =>
    match n, nodeChildren m n.id with
    | .mk _ _ _ _ _ _ _ _ _ none, [] => n
    | .mk i nm t l c ch ind v pp _, kids =>
      .mk i nm t l c ch ind v pp (some (kids.map (materialize m fuel)))

/-- `buildTree` of `code.js`: first pass creates one node per distinct
non-degenerate path into `nodeMap` (variables without a usable name are
skipped with a warning); second pass links every node to its `parentPath`
parent (orphans become roots) and returns the root nodes. -/
def buildTree (vars : List JVariable) : List TreeNode :=
  let m := vars.foldl
    (fun m v =>
      match v.name with
      | none => m
      | some nm => addParts v.id (jsSplit '/' nm) 0 "" m) []
  (rootNodes m).map (materialize m m.length)

end CodeJs

mutual

/-- Number of `"variable"`-typed nodes in a whole forest (leaf census). -/
def countVariableNodes : List TreeNode → Nat
  | [] => 0
  | n :: rest => countVariableNodesOne n + countVariableNodes rest

def countVariableNodesOne (n : TreeNode) : Nat :=
  match n with
  | .mk _ _ t _ _ _ _ _ _ (some cs) =>
    (if t == "variable" then 1 else 0) + countVariableNodes cs
  | .mk _ _ t _ _ _ _ _ _ none => if t == "variable" then 1 else 0

end

mutual

/-- Does any node of the forest (at any depth) carry this `id`? -/
def containsId : List TreeNode → String → Bool
  | [], _ => false
  | n :: rest, nodeId => containsIdOne n nodeId || containsId rest nodeId

def containsIdOne (n : TreeNode) (nodeId : String) : Bool :=
  match n with
  | .mk i _ _ _ _ _ _ _ _ (some cs) => i == nodeId || containsId cs nodeId
  | .mk i _ _ _ _ _ _ _ _ none => i == nodeId

end

mutual

/-- The checked flags of the descendant leaves of a forest, left to right.
A leaf is a node without a `children` array (under `wfForest` that is exactly
a `"variable"` node). -/
def leafChecks : List TreeNode → List Bool
  | [] => []
  | n :: rest => leafChecksOne n ++ leafChecks rest

def leafChecksOne : TreeNode → List Bool
  | .mk _ _ _ _ _ _ _ _ _ (some cs) => leafChecks cs
  | .mk _ _ _ _ _ ch _ _ _ none => [ch]

end

mutual

/-- Data-model well-formedness from the specification: a node is a group iff
it has one or more children; a node without a `children` array is a variable
leaf. -/
def wfForest : List TreeNode → Bool
  | [] => true
  | n :: rest => wfNode n && wfForest rest

def wfNode : TreeNode → Bool
  | .mk _ _ t _ _ _ _ _ _ (some cs) => t == "group" && !cs.isEmpty && wfForest cs
  | .mk _ _ t _ _ _ _ _ _ none => t == "variable"

end

mutual

/-- The tri-state selection invariant, on every node of the forest: `checked`
iff all descendant leaves are checked, `indeterminate` iff both a checked and
an unchecked descendant leaf exist.  Applied to a leaf itself it forces
`indeterminate = false`. -/
def triStateForest : List TreeNode → Bool
  | [] => true
  | n :: rest => triStateNode n && triStateForest rest

def triStateNode (n : TreeNode) : Bool :=
  match n with
  | .mk _ _ _ _ _ ch ind _ _ (some cs) =>
    (ch == (leafChecks cs).all id)
      && (ind == ((leafChecks cs).any id && (leafChecks cs).any (fun b => !b)))
      && triStateForest cs
  | .mk _ _ _ _ _ ch ind _ _ none =>
    (ch == ch) && (ind == (ch && !ch))

end

mutual

/-- Every node of the forest has `checked = v` and `indeterminate = false`. -/
def allSetForest : List TreeNode → Bool → Bool
  | [], _ => true
  | n :: rest, v => allSetOne n v && allSetForest rest v

def allSetOne (n : TreeNode) (v : Bool) : Bool :=
  match n with
  | .mk _ _ _ _ _ ch ind _ _ (some cs) =>
    (ch == v) && (ind == false) && allSetForest cs v
  | .mk _ _ _ _ _ ch ind _ _ none => (ch == v) && (ind == false)

end

mutual

/-- Every node of the forest whose `id` is `nodeId` has `checked = v`,
`indeterminate = false` and a fully set subtree (the claim's set-all clause
for the target of `updateNodeChecked`). -/
def targetSetForest : List TreeNode → String → Bool → Bool
  | [], _, _ => true
  | n :: rest, nodeId, v => targetSetOne n nodeId v && targetSetForest rest nodeId v

def targetSetOne (n : TreeNode) (nodeId : String) (v : Bool) : Bool :=
  match n with
  | .mk i _ _ _ _ ch ind _ _ (some cs) =>
    (if i == nodeId then (ch == v) && (ind == false) && allSetForest cs v else true)
      && targetSetForest cs nodeId v
  | .mk i _ _ _ _ ch ind _ _ none =>
    if i == nodeId then (ch == v) && (ind == false) else true

end

/-- The `VariableValue` union of `custom.ts`.  Values are opaque payloads to
the migration engine — they are only copied, never computed with — so the
numeric channels are modelled by `Int`. -/
inductive VariableValue : Type where
  | boolean (b : Bool)
  | number (n : Int)
  | string (s : String)
  | color (r g b a : Int)
  | variableAlias (id : String)
deriving Repr, DecidableEq

/-- A mode descriptor of a variable collection (`{modeId, name}`). -/
structure ModeInfo where
  modeId : String
  name : String
deriving Repr, DecidableEq

/-- A variable collection as exposed by the external store. -/
structure CollectionRec where
  id : String
  name : String
  modes : List ModeInfo
  variableIds : List String
deriving Repr, DecidableEq

/-- A variable as held by the external store.  `valuesByMode` is the JS
object mapping mode id to value, as an insertion-ordered association list. -/
structure VariableRec where
  id : String
  name : String
  resolvedType : String
  variableCollectionId : String
  valuesByMode : List (String × VariableValue)
deriving Repr, DecidableEq

/-- The external variable store.  All `figma.variables` calls are modelled as
pure reads of, or explicit updates to, a value of this type (`vars` holds the
variables; `variables` is a reserved word in Lean). -/
structure Store where
  collections : List CollectionRec
  vars : List VariableRec
deriving Repr, DecidableEq

/-- `figma.variables.getVariableByIdAsync`. -/
def getVariableById (s : Store) (id : String) : Option VariableRec :=
  s.vars.find? (fun v => v.id == id)

/-- `figma.variables.getVariableCollectionByIdAsync`. -/
def getCollectionById (s : Store) (id : String) : Option CollectionRec :=
  s.collections.find? (fun c => c.id == id)

/-- Id of a variable newly created by the store: one strictly longer than
every id already present, so it is guaranteed fresh (the real store issues
unique ids). -/
def freshVarId (s : Store) : String :=
  "id" ++ String.mk (List.replicate ((s.vars.map (fun v => v.id.length)).sum + 1) 'x')

/-- `figma.variables.createVariable(name, collectionId, resolvedType)`:
appends a fresh variable with no per-mode values to the store and registers
its id in the owning collection. -/
def createVariable (s : Store) (name collectionId resolvedType : String) :
    VariableRec × Store :=
  let newVar : VariableRec :=
    { id := freshVarId s, name := name, resolvedType := resolvedType,
      variableCollectionId := collectionId, valuesByMode := [] }
  (newVar,
    { collections := s.collections.map (fun c =>
        if c.id == collectionId then { c with variableIds := c.variableIds ++ [newVar.id] }
        else c),
      vars := s.vars ++ [newVar] })

/-- JS object assignment `obj[k] = v`: overwrite in place, or append. -/
def objSet {α : Type} (m : List (String × α)) (k : String) (v : α) :
    List (String × α) :=
  if (m.find? (fun kv => kv.1 == k)).isSome then
    m.map (fun kv => if kv.1 == k then (kv.1, v) else kv)
  else m ++ [(k, v)]

/-- `variable.setValueForMode(modeId, value)` on the variable with this id. -/
def setValueForMode (s : Store) (vid modeId : String) (value : VariableValue) :
    Store :=
  { s with vars := s.vars.map (fun v =>
      if v.id == vid then { v with valuesByMode := objSet v.valuesByMode modeId value }
      else v) }

/-- `variable.remove()`: deletes the variable and unregisters its id. -/
def removeVariable (s : Store) (vid : String) : Store :=
  { collections := s.collections.map (fun c =>
      { c with variableIds := c.variableIds.filter (fun i => i != vid) }),
    vars := s.vars.filter (fun v => v.id != vid) }

/-- One error per throw site of the two move variants (the JS throws `Error`s
whose `message` strings identify the same cases). -/
inductive SwapError : Type where
  | variableNotFound (id : String)
  | sourceCollectionNotFound (id : String)
  | targetCollectionNotFound (id : String)
  | incompatibleModes (detail : String)
  | duplicateName (name collectionName : String)
  | runtimeNoModes
deriving Repr, DecidableEq

namespace Svc

/-- `getVariablesByCollection` of `variablesService.ts`: empty list for an
unknown collection, otherwise the member ids resolved against the store,
silently dropping ids that do not resolve. -/
def getVariablesByCollection (s : Store) (collectionId : String) : List VariableRec :=
  match getCollectionById s collectionId with
  | none => []
  | some c => c.variableIds.filterMap (getVariableById s)

/-- `swapVariableCollection` of `variablesService.ts`: resolve the variable
and the target collection, reject a duplicate full name in the target, create
the new variable, copy only the **first** source value onto the target
collection's **first** mode, then delete the original.  There is no
mode-compatibility validation in this variant.  Reading
`targetCollection.modes[0]` of a collection without modes would throw a
`TypeError` — after the creation — which `runtimeNoModes` models. -/
def swapVariableCollection (s : Store) (variableId targetCollectionId : String) :
    Except SwapError Unit × Store :=
  match getVariableById s variableId with
  | none => (.error (.variableNotFound variableId), s)
  | some v =>
    match getCollectionById s targetCollectionId with
    | none => (.error (.targetCollectionNotFound targetCollectionId), s)
    | some targetCollection =>
      let existingVars := getVariablesByCollection s targetCollectionId
      if existingVars.any (fun ev => ev.name == v.name) then
        (.error (.duplicateName v.name targetCollection.name), s)
      else
        let created := createVariable s v.name targetCollectionId v.resolvedType
        match targetCollection.modes with
        | [] => (.error .runtimeNoModes, created.2)
        | tm :: _ =>
          let s2 :=
            match v.valuesByMode with
            | [] => created.2
            | (_, firstValue) :: _ =>
              setValueForMode created.2 created.1.id tm.modeId firstValue
          (.ok (), removeVariable s2 v.id)

/-- The batch result of `batchSwapVariables`: ids that succeeded, and
`(id, error)` pairs for the failures (the JS stores `error.message`). -/
structure BatchResult where
  success : List String
  failed : List (String × SwapError)
deriving Repr, DecidableEq

/-- `batchSwapVariables` of `variablesService.ts`: strictly sequential
`for … of` loop; each item is tried once, its error caught and recorded, and
the loop continues with the store as the failed or successful attempt left
it. -/
def batchSwapVariables (s : Store) :
    List String → String → BatchResult × Store
  | [], _ => ({ success := [], failed := [] }, s)
  | varId :: rest, targetCollectionId =>
    match swapVariableCollection s varId targetCollectionId with
    | (.ok _, s1) =>
      let r := batchSwapVariables s1 rest targetCollectionId
      ({ r.1 with success := varId :: r.1.success }, r.2)
    | (.error e, s1) =>
      let r := batchSwapVariables s1 rest targetCollectionId
      ({ r.1 with failed := (varId, e) :: r.1.failed }, r.2)

end Svc

namespace CodeJs

/-- `validateModeCompatibility` result: `compatible` carries the JS object
mapping source mode id to target mode id. -/
inductive ModeValidation : Type where
  | compatible (modeMapping : List (String × String))
  | incompatible (error : String)
deriving Repr, DecidableEq

def ModeValidation.isCompatible : ModeValidation → Bool
  | .compatible _ => true
  | .incompatible _ => false

/-- The `for` loop of `validateModeCompatibility` comparing mode names
pairwise in declared order: index of the first position whose names differ. -/
def firstNameMismatch : List ModeInfo → List ModeInfo → Nat → Option Nat
  | m1 :: r1, m2 :: r2, i =>
    if m1.name != m2.name then some i else firstNameMismatch r1 r2 (i + 1)
  | _, _, _ => none

/-- The mapping-building loop: `modeMapping[sourceModes[i].modeId] =
targetModes[i].modeId` for each position (object-assignment semantics). -/
def buildModeMapping : List ModeInfo → List ModeInfo → List (String × String) →
    List (String × String)
  | sm :: sr, tm :: tr, acc => buildModeMapping sr tr (objSet acc sm.modeId tm.modeId)
  | _, _, acc => acc

/-- `validateModeCompatibility` of `code.js`: incompatible when the mode
counts differ or some ordinal position holds differently named modes;
otherwise compatible with the positional source-to-target mode id mapping. -/
def validateModeCompatibility (sourceCollection targetCollection : CollectionRec) :
    ModeValidation :=
  let sourceModes := sourceCollection.modes
  let targetModes := targetCollection.modes
  if sourceModes.length != targetModes.length then
    .incompatible ("mode count differs: source has " ++ toString sourceModes.length
      ++ " modes, target has " ++ toString targetModes.length ++ " modes")
  else
    match firstNameMismatch sourceModes targetModes 0 with
    | some i => .incompatible ("mode " ++ toString (i + 1) ++ " does not match")
    | none => .compatible (buildModeMapping sourceModes targetModes [])

/-- `getVariablesByCollection` of `code.js`: like the service variant but
additionally dropping variables whose `name` is falsy (the empty string). -/
def getVariablesByCollection (s : Store) (collectionId : String) : List VariableRec :=
  match getCollectionById s collectionId with
  | none => []
  | some c => (c.variableIds.filterMap (getVariableById s)).filter (fun v => v.name != "")

/-- `swapVariableCollection` of `code.js`: resolve variable, source and
target collection; validate mode compatibility; reject a duplicate name in
the target; then create the new variable, transfer the value of every source
mode whose id the mapping sends to a truthy target mode id (unmapped modes
are skipped with a warning), and delete the original. -/
def swapVariableCollection (s : Store)
    (variableId sourceCollectionId targetCollectionId : String) :
    Except SwapError String × Store :=
  match getVariableById s variableId with
  | none => (.error (.variableNotFound variableId), s)
  | some v =>
    match getCollectionById s sourceCollectionId with
    | none => (.error (.sourceCollectionNotFound sourceCollectionId), s)
    | some sourceCollection =>
      match getCollectionById s targetCollectionId with
      | none => (.error (.targetCollectionNotFound targetCollectionId), s)
      | some targetCollection =>
        match validateModeCompatibility sourceCollection targetCollection with
        | .incompatible e => (.error (.incompatibleModes e), s)
        | .compatible modeMapping =>
          let existingVars := getVariablesByCollection s targetCollectionId
          if existingVars.any (fun ev => ev.name == v.name) then
            (.error (.duplicateName v.name targetCollection.name), s)
          else
            let created := createVariable s v.name targetCollectionId v.resolvedType
            let s2 := v.valuesByMode.foldl (fun st p =>
              match lookupAssoc modeMapping p.1 with
              | some targetModeId =>
                if targetModeId != "" then
                  setValueForMode st created.1.id targetModeId p.2
                else st
              | none => st) created.2
            (.ok v.name, removeVariable s2 v.id)

end CodeJs

/-! ## Claim C1 — buildTree leaf preservation and the specified scenario -/

/-- The scenario variable list of the specification:
`["color/bg/default", "color/bg/hover", "color/fg"]`. -/
def scenarioVars : List VariableData :=
  [⟨"v1", "color/bg/default"⟩, ⟨"v2", "color/bg/hover"⟩, ⟨"v3", "color/fg"⟩]

/-- The same list as input records of the `code.js` build. -/
def scenarioVarsJs : List CodeJs.JVariable :=
  [⟨"v1", some "color/bg/default"⟩, ⟨"v2", some "color/bg/hover"⟩,
   ⟨"v3", some "color/fg"⟩]

/-- The forest the specification scenario demands: one root group `color`
with children group `bg` (leaves `default`, `hover`) and leaf `fg`. -/
def scenarioExpected : List TreeNode :=
  [.mk "color" "color" "group" 0 true false false none none (some
    [.mk "color/bg" "bg" "group" 1 true false false none (some "color") (some
      [.mk "color/bg/default" "default" "variable" 2 true false false
        (some "v1") (some "color/bg") none,
       .mk "color/bg/hover" "hover" "variable" 2 true false false
        (some "v2") (some "color/bg") none]),
     .mk "color/fg" "fg" "variable" 1 true false false
      (some "v3") (some "color") none])]

/-- C1: the claim fails on the `treeBuilder.ts` variant of `buildTree`.  On
the specification's own scenario input of three variables it returns a single
root group `color` with an **empty** children array — zero variable leaves
instead of one leaf per variable — because nodes below the root level are only
ever inserted into the re-keyed per-level lookup maps, never into any
`children` array.  The two-pass `code.js` variant does return exactly the
forest the scenario demands, confirming the specification states the intent
and `treeBuilder.ts` is the slip (the specification itself flags this
re-keying bug risk in its design notes). -/
theorem c1_treeBuilder_loses_all_leaves :
    countVariableNodes (TreeBuilder.buildTree scenarioVars) = 0 ∧
    scenarioVars.length = 3 ∧
    TreeBuilder.buildTree scenarioVars =
      [.mk "color" "color" "group" 0 true false false none none (some [])] ∧
    CodeJs.buildTree scenarioVarsJs = scenarioExpected :=
  ⟨rfl, rfl, rfl, rfl⟩

/-! ## Claim C2 — incompatible modes reject the move and leave the store -/

/-- C2: in the `code.js` `swapVariableCollection`, when the variable and both
collections resolve but mode validation fails, the call returns the
incompatible-modes error and the store is returned exactly as it was: no
variable is created in the target and the source variable is not deleted. -/
theorem c2_swap_incompatible_modes_rejected
    (s : Store) (variableId sourceCollectionId targetCollectionId : String)
    (v : VariableRec) (sc tc : CollectionRec) (e : String)
    (hv : getVariableById s variableId = some v)
    (hs : getCollectionById s sourceCollectionId = some sc)
    (ht : getCollectionById s targetCollectionId = some tc)
    (hm : CodeJs.validateModeCompatibility sc tc = .incompatible e) :
    CodeJs.swapVariableCollection s variableId sourceCollectionId targetCollectionId
      = (.error (.incompatibleModes e), s) := by
  unfold CodeJs.swapVariableCollection
  simp only [hv, hs, ht, hm]

/-- Store for the C2 witness: variable `a` lives in a two-mode collection
`S` (`Light`, `Dark`); the target `T` has a single mode. -/
def c2store : Store :=
  ⟨[⟨"S", "Source", [⟨"m1", "Light"⟩, ⟨"m2", "Dark"⟩], ["a"]⟩,
    ⟨"T", "Target", [⟨"t1", "Single"⟩], []⟩],
   [⟨"a", "color/x", "COLOR", "S", [("m1", .number 1)]⟩]⟩

theorem c2_witness :
    CodeJs.swapVariableCollection c2store "a" "S" "T"
      = (.error (.incompatibleModes
          ("mode count differs: source has 2 modes, target has 1 modes")), c2store) :=
  c2_swap_incompatible_modes_rejected c2store "a" "S" "T"
    ⟨"a", "color/x", "COLOR", "S", [("m1", .number 1)]⟩
    ⟨"S", "Source", [⟨"m1", "Light"⟩, ⟨"m2", "Dark"⟩], ["a"]⟩
    ⟨"T", "Target", [⟨"t1", "Single"⟩], []⟩ _ rfl rfl rfl rfl

/-! ## Claim C3 — duplicate full name in the target rejects the move -/

/-- C3: in the service-module `swapVariableCollection` (the cited variant,
whose signature takes only the variable and the target collection), when the
variable and the target collection resolve and some variable of the target
collection carries the same full name, the call returns the duplicate-name
error and the store is returned exactly as it was: the source variable is
untouched and nothing was created. -/
theorem c3_swap_duplicate_name_rejected
    (s : Store) (variableId targetCollectionId : String)
    (v : VariableRec) (tc : CollectionRec)
    (hv : getVariableById s variableId = some v)
    (ht : getCollectionById s targetCollectionId = some tc)
    (hdup : (Svc.getVariablesByCollection s targetCollectionId).any
      (fun ev => ev.name == v.name) = true) :
    Svc.swapVariableCollection s variableId targetCollectionId
      = (.error (.duplicateName v.name tc.name), s) := by
  unfold Svc.swapVariableCollection
  simp only [hv, ht, hdup, if_pos]

/-- Store for the C3 witness: target `T` already holds variable `b` with the
same full name `color/x` as the source variable `a`. -/
def c3store : Store :=
  ⟨[⟨"S", "Source", [⟨"m1", "Light"⟩], ["a"]⟩,
    ⟨"T", "Target", [⟨"t1", "Light"⟩], ["b"]⟩],
   [⟨"a", "color/x", "COLOR", "S", [("m1", .number 1)]⟩,
    ⟨"b", "color/x", "COLOR", "T", []⟩]⟩

theorem c3_witness :
    Svc.swapVariableCollection c3store "a" "T"
      = (.error (.duplicateName "color/x" "Target"), c3store) :=
  c3_swap_duplicate_name_rejected c3store "a" "T"
    ⟨"a", "color/x", "COLOR", "S", [("m1", .number 1)]⟩
    ⟨"T", "Target", [⟨"t1", "Light"⟩], ["b"]⟩ rfl rfl rfl

/-! ## Claim C10 — the service-module move transfers at most one value -/

/-- A freshly issued variable id is distinct from every id in the store: it
is strictly longer than each of them. -/
theorem freshVarId_ne_of_mem (s : Store) (w : VariableRec) (hw : w ∈ s.vars) :
    w.id ≠ freshVarId s := by
  intro h
  have hmem : w.id.length ∈ s.vars.map (fun v => v.id.length) :=
    List.mem_map_of_mem (fun v => v.id.length) hw
  have hle : w.id.length ≤ (s.vars.map (fun v => v.id.length)).sum :=
    List.single_le_sum (fun x _ => Nat.zero_le x) _ hmem
  have hfresh : (freshVarId s).length
      = 2 + ((s.vars.map (fun v => v.id.length)).sum + 1) := by
    show ("id" ++ String.mk (List.replicate _ 'x')).length = _
    rw [String.length_append]
    show 2 + (List.replicate _ 'x').length = _
    rw [List.length_replicate]
  have : w.id.length = (freshVarId s).length := by rw [h]
  omega

/-- The value transfer the claim describes: the first source value in
enumeration order, written to the target collection's first mode; nothing at
all when the source has no values. -/
def firstValueToFirstMode (tc : CollectionRec) (v : VariableRec) :
    List (String × VariableValue) :=
  match tc.modes, v.valuesByMode with
  | tm :: _, (_, firstValue) :: _ => [(tm.modeId, firstValue)]
  | _, _ => []

/-- C10: a successful `variablesService.ts` `swapVariableCollection` creates
in the target collection a variable carrying the source's name and type whose
`valuesByMode` holds at most one entry: the first source value in enumeration
order, keyed by the target collection's first mode — every other source mode
value is dropped, whatever the two mode sets are. -/
theorem c10_swap_transfers_first_value_only
    (s : Store) (variableId targetCollectionId : String) (s2 : Store)
    (v : VariableRec) (tc : CollectionRec)
    (hv : getVariableById s variableId = some v)
    (ht : getCollectionById s targetCollectionId = some tc)
    (hok : Svc.swapVariableCollection s variableId targetCollectionId
      = (.ok (), s2)) :
    ∃ n ∈ s2.vars, n.name = v.name ∧ n.variableCollectionId = targetCollectionId ∧
      n.resolvedType = v.resolvedType ∧
      n.valuesByMode = firstValueToFirstMode tc v ∧ n.valuesByMode.length ≤ 1 := by
  have hvmem : v ∈ s.vars := List.mem_of_find?_eq_some hv
  have hne : freshVarId s ≠ v.id := fun h => freshVarId_ne_of_mem s v hvmem h.symm
  simp only [Svc.swapVariableCollection, hv, ht] at hok
  by_cases hdup : (Svc.getVariablesByCollection s targetCollectionId).any
      (fun ev => ev.name == v.name) = true
  · rw [if_pos hdup] at hok
    simp at hok
  · rw [if_neg hdup] at hok
    match hm : tc.modes with
    | [] =>
      rw [hm] at hok
      simp at hok
    | tm :: mrest =>
      rw [hm] at hok
      match hvals : v.valuesByMode with
      | [] =>
        rw [hvals] at hok
        have hs2 : s2 = removeVariable (createVariable s v.name targetCollectionId
            v.resolvedType).2 v.id := by
          have := congrArg Prod.snd hok
          simpa using this.symm
        refine ⟨(createVariable s v.name targetCollectionId v.resolvedType).1, ?_, rfl, rfl, rfl, ?_, ?_⟩
        · rw [hs2]
          simp only [removeVariable, createVariable, List.mem_filter]
          refine ⟨List.mem_append_right _ (List.mem_singleton.mpr rfl), ?_⟩
          simp [hne]
        · simp [createVariable, firstValueToFirstMode, hvals]
        · simp [createVariable]
      | (m0, firstValue) :: vrest =>
        rw [hvals] at hok
        have hs2 : s2 = removeVariable (setValueForMode
            (createVariable s v.name targetCollectionId v.resolvedType).2
            (createVariable s v.name targetCollectionId v.resolvedType).1.id
            tm.modeId firstValue) v.id := by
          have := congrArg Prod.snd hok
          simpa using this.symm
        refine ⟨{ (createVariable s v.name targetCollectionId v.resolvedType).1
            with valuesByMode := [(tm.modeId, firstValue)] }, ?_, rfl, rfl, rfl, ?_, ?_⟩
        · rw [hs2]
          simp only [removeVariable, setValueForMode, createVariable, List.mem_filter]
          constructor
          · refine List.mem_map.mpr ⟨(createVariable s v.name targetCollectionId
              v.resolvedType).1, List.mem_append_right _ (List.mem_singleton.mpr rfl), ?_⟩
            simp [createVariable, objSet]
          · simp [createVariable, hne]
        · simp [firstValueToFirstMode, hvals, hm]
        · simp

/-- Source variable for the C10 witness: two per-mode values. -/
def c10var : VariableRec :=
  ⟨"a", "color/x", "COLOR", "S", [("m1", .number 1), ("m2", .number 2)]⟩

/-- Target collection for the C10 witness. -/
def c10target : CollectionRec := ⟨"T", "Target", [⟨"t1", "Light"⟩], []⟩

/-- Store for the C10 witness. -/
def c10store : Store :=
  ⟨[⟨"S", "Source", [⟨"m1", "Light"⟩, ⟨"m2", "Dark"⟩], ["a"]⟩, c10target],
   [c10var]⟩

theorem c10_witness :
    ∃ n ∈ (Svc.swapVariableCollection c10store "a" "T").2.vars,
      n.name = c10var.name ∧ n.variableCollectionId = "T" ∧
      n.resolvedType = c10var.resolvedType ∧
      n.valuesByMode = firstValueToFirstMode c10target c10var ∧
      n.valuesByMode.length ≤ 1 :=
  c10_swap_transfers_first_value_only c10store "a" "T" _ c10var c10target
    rfl rfl rfl

/-! ## Claim C6 — positional mode compatibility -/

/-- Elementwise characterisation of the mismatch scan. -/
theorem firstNameMismatch_eq_none_iff (l1 l2 : List ModeInfo) (i : Nat) :
    CodeJs.firstNameMismatch l1 l2 i = none ↔
      ∀ p ∈ l1.zip l2, p.1.name = p.2.name := by
  induction l1 generalizing l2 i with
  | nil => cases l2 <;> simp [CodeJs.firstNameMismatch]
  | cons m1 r1 ih =>
    cases l2 with
    | nil => simp [CodeJs.firstNameMismatch]
    | cons m2 r2 =>
      by_cases h : m1.name = m2.name
      · simp only [CodeJs.firstNameMismatch, h, bne_self_eq_false, Bool.false_eq_true,
          if_neg, not_false_iff, List.zip_cons_cons, List.mem_cons]
        rw [ih r2 (i + 1)]
        constructor
        · rintro hall p (rfl | hp)
          · exact h
          · exact hall p hp
        · intro hall p hp
          exact hall p (Or.inr hp)
      · simp only [CodeJs.firstNameMismatch, List.zip_cons_cons, List.mem_cons]
        rw [if_pos (by simpa using h)]
        simp only [reduceCtorEq, false_iff, not_forall]
        exact ⟨(m1, m2), Or.inl rfl, h⟩

/-- When the key is not yet bound, `objSet` appends the binding. -/
theorem objSet_of_fresh {α : Type} (m : List (String × α)) (k : String) (v : α)
    (h : ∀ kv ∈ m, kv.1 ≠ k) : objSet m k v = m ++ [(k, v)] := by
  unfold objSet
  have hfind : m.find? (fun kv => kv.1 == k) = none :=
    List.find?_eq_none.mpr (fun kv hkv => by simpa using h kv hkv)
  rw [if_neg (by rw [hfind]; simp)]

/-- With pairwise distinct keys, lookup in an association list returns each
pair's own value. -/
theorem lookupAssoc_pairs {α : Type} (pairs : List (String × α))
    (hnd : (pairs.map Prod.fst).Nodup) :
    ∀ p ∈ pairs, lookupAssoc pairs p.1 = some p.2 := by
  induction pairs with
  | nil => intro p hp; cases hp
  | cons kv rest ih =>
    simp only [List.map_cons, List.nodup_cons] at hnd
    intro p hp
    rcases List.mem_cons.mp hp with rfl | hp2
    · unfold lookupAssoc
      rw [List.find?_cons_of_pos _ (by simp)]
      rfl
    · have hne : kv.1 ≠ p.1 := by
        intro h
        exact hnd.1 (h ▸ List.mem_map_of_mem Prod.fst hp2)
      unfold lookupAssoc
      rw [List.find?_cons_of_neg _ (by simpa using hne)]
      exact ih hnd.2 p hp2

/-- Under distinct source mode ids, the mapping loop produces exactly the
positional pairing of the zipped mode lists, appended to the accumulator. -/
theorem buildModeMapping_eq (sm tm : List ModeInfo) (acc : List (String × String))
    (hnd : (sm.map (fun m => m.modeId)).Nodup)
    (hdisj : ∀ kv ∈ acc, ∀ m ∈ sm, kv.1 ≠ m.modeId) :
    CodeJs.buildModeMapping sm tm acc
      = acc ++ (sm.zip tm).map (fun p => (p.1.modeId, p.2.modeId)) := by
  induction sm generalizing tm acc with
  | nil => cases tm <;> simp [CodeJs.buildModeMapping]
  | cons m1 r1 ih =>
    cases tm with
    | nil => simp [CodeJs.buildModeMapping]
    | cons t1 r2 =>
      simp only [List.map_cons, List.nodup_cons] at hnd
      rw [CodeJs.buildModeMapping,
        objSet_of_fresh _ _ _ (fun kv hkv => hdisj kv hkv m1 (List.mem_cons_self m1 r1)),
        ih r2 _ hnd.2]
      · simp
      · intro kv hkv m hm
        rcases List.mem_append.mp hkv with hkv1 | hkv2
        · exact hdisj kv hkv1 m (List.mem_cons_of_mem _ hm)
        · rcases List.mem_singleton.mp hkv2 with rfl
          intro h
          refine hnd.1 ?_
          rw [show m1.modeId = m.modeId from h]
          exact List.mem_map_of_mem (fun md => md.modeId) hm

/-- C6: `validateModeCompatibility` is incompatible exactly when the mode
counts differ or the mode names differ at some ordinal position (positional
zip, not name lookup); on success, provided the source mode ids are pairwise
distinct, the produced mapping sends the i-th source mode id to the i-th
target mode id; and the specification scenario — two-mode source versus
one-mode target — is incompatible. -/
theorem c6_validateModeCompatibility_positional :
    (∀ sc tc : CollectionRec,
      (CodeJs.validateModeCompatibility sc tc).isCompatible = false ↔
        sc.modes.length ≠ tc.modes.length ∨
          ∃ p ∈ sc.modes.zip tc.modes, p.1.name ≠ p.2.name) ∧
    (∀ (sc tc : CollectionRec) (m : List (String × String)),
      (sc.modes.map (fun md => md.modeId)).Nodup →
      CodeJs.validateModeCompatibility sc tc = .compatible m →
      ∀ p ∈ sc.modes.zip tc.modes, lookupAssoc m p.1.modeId = some p.2.modeId) ∧
    (CodeJs.validateModeCompatibility
      ⟨"S", "Source", [⟨"m1", "Light"⟩, ⟨"m2", "Dark"⟩], []⟩
      ⟨"T", "Target", [⟨"t1", "Single"⟩], []⟩).isCompatible = false := by
  refine ⟨?_, ?_, rfl⟩
  · intro sc tc
    constructor
    · intro hinc
      by_contra hno
      push_neg at hno
      obtain ⟨hlen, hall⟩ := hno
      have hcompat : CodeJs.validateModeCompatibility sc tc
          = .compatible (CodeJs.buildModeMapping sc.modes tc.modes []) := by
        unfold CodeJs.validateModeCompatibility
        rw [if_neg (by simpa using hlen),
          (firstNameMismatch_eq_none_iff _ _ 0).mpr hall]
      rw [hcompat] at hinc
      cases hinc
    · intro h
      unfold CodeJs.validateModeCompatibility
      rcases h with hlen | ⟨p, hp, hpne⟩
      · rw [if_pos (by simpa using hlen)]
        rfl
      · by_cases hlen : sc.modes.length = tc.modes.length
        · rw [if_neg (by simpa using hlen)]
          have hne2 : CodeJs.firstNameMismatch sc.modes tc.modes 0 ≠ none := by
            rw [Ne, firstNameMismatch_eq_none_iff]
            push_neg
            exact ⟨p, hp, hpne⟩
          obtain ⟨i, hi⟩ := Option.ne_none_iff_exists'.mp hne2
          rw [hi]
          rfl
        · rw [if_pos (by simpa using hlen)]
          rfl
  · intro sc tc m hnd hcomp p hp
    unfold CodeJs.validateModeCompatibility at hcomp
    by_cases hlen : sc.modes.length = tc.modes.length
    · rw [if_neg (by simpa using hlen)] at hcomp
      match hmm : CodeJs.firstNameMismatch sc.modes tc.modes 0 with
      | some i => rw [hmm] at hcomp; cases hcomp
      | none =>
        rw [hmm] at hcomp
        have hm : m = (sc.modes.zip tc.modes).map (fun q => (q.1.modeId, q.2.modeId)) := by
          have heq := buildModeMapping_eq sc.modes tc.modes [] hnd (by simp)
          rw [heq] at hcomp
          simpa using (CodeJs.ModeValidation.compatible.injEq _ _).mp hcomp.symm
        subst hm
        have hkeys : (((sc.modes.zip tc.modes).map
            (fun q => (q.1.modeId, q.2.modeId))).map Prod.fst)
            = sc.modes.map (fun md => md.modeId) := by
          rw [List.map_map]
          have h1 : (Prod.fst ∘ fun q : ModeInfo × ModeInfo => (q.1.modeId, q.2.modeId))
              = (fun md : ModeInfo => md.modeId) ∘ Prod.fst := rfl
          rw [h1, ← List.map_map]
          rw [List.map_fst_zip _ _ (le_of_eq hlen)]
        exact lookupAssoc_pairs _ (by rw [hkeys]; exact hnd) _
          (List.mem_map_of_mem _ hp)
    · rw [if_pos (by simpa using hlen)] at hcomp
      cases hcomp

/-- Source collection of the C6 witness (matching two-mode target). -/
def c6src : CollectionRec := ⟨"S", "Source", [⟨"m1", "Light"⟩, ⟨"m2", "Dark"⟩], []⟩

/-- Target collection of the C6 witness. -/
def c6tgt : CollectionRec := ⟨"T", "Target", [⟨"t1", "Light"⟩, ⟨"t2", "Dark"⟩], []⟩

theorem c6_witness :
    lookupAssoc [("m1", "t1"), ("m2", "t2")] "m1" = some "t1" ∧
    (CodeJs.validateModeCompatibility
      ⟨"A", "A", [⟨"a1", "Light"⟩, ⟨"a2", "Dark"⟩], []⟩
      ⟨"B", "B", [⟨"b1", "Single"⟩], []⟩).isCompatible = false :=
  ⟨c6_validateModeCompatibility_positional.2.1 c6src c6tgt
      [("m1", "t1"), ("m2", "t2")] (by decide) rfl
      (⟨"m1", "Light"⟩, ⟨"t1", "Light"⟩) (by decide),
   (c6_validateModeCompatibility_positional.1 _ _).mpr (Or.inl (by decide))⟩

/-! ## Claim C4 — batch move: sequential, total, partitioning -/

/-- C4 counterexample store: variable `a` (name `color/x`) can be moved to
the empty target `T` once; a second attempt with the same id then fails. -/
def c4store : Store :=
  ⟨[⟨"S", "Source", [⟨"m1", "Light"⟩], ["a"]⟩,
    ⟨"T", "Target", [⟨"t1", "Light"⟩], []⟩],
   [⟨"a", "color/x", "COLOR", "S", [("m1", .number 1)]⟩]⟩

/-- C4 counterexample: with the duplicate input id list `["a", "a"]` the
first attempt succeeds and the second fails (the variable no longer exists),
so the id `a` appears in **both** result sequences — refuting the claim that
every input id appears in exactly one of the two sequences. -/
theorem c4_counterexample_duplicate_id :
    "a" ∈ (Svc.batchSwapVariables c4store ["a", "a"] "T").1.success ∧
    "a" ∈ (Svc.batchSwapVariables c4store ["a", "a"] "T").1.failed.map
      (fun p => p.1) := by
  constructor
  · show "a" ∈ ["a"]
    simp
  · show "a" ∈ ["a"]
    simp

/-- C4 (amended): for every store, input id list and target, the batch result
partitions the input **positionally**: the success ids and the failed ids are
both subsequences of the input, and for every id the two result sequences
together contain it exactly as often as the input does — so when the input
ids are pairwise distinct, every id lands in exactly one sequence, exactly
once.  Every item is attempted exactly once, in input order, sequentially
(the definition of `batchSwapVariables` threads the store left to right), and
a failed item never aborts the batch. -/
theorem c4_batch_result_partitions_input
    (s : Store) (ids : List String) (targetCollectionId : String) :
    (Svc.batchSwapVariables s ids targetCollectionId).1.success.Sublist ids ∧
    ((Svc.batchSwapVariables s ids targetCollectionId).1.failed.map
      (fun p => p.1)).Sublist ids ∧
    ∀ x : String,
      (Svc.batchSwapVariables s ids targetCollectionId).1.success.count x +
      ((Svc.batchSwapVariables s ids targetCollectionId).1.failed.map
        (fun p => p.1)).count x = ids.count x := by
  induction ids generalizing s with
  | nil =>
    refine ⟨List.Sublist.refl _, List.Sublist.refl _, fun x => rfl⟩
  | cons id rest ih =>
    match hswap : Svc.swapVariableCollection s id targetCollectionId with
    | (.ok u, s1) =>
      have heq : Svc.batchSwapVariables s (id :: rest) targetCollectionId
          = ({ (Svc.batchSwapVariables s1 rest targetCollectionId).1 with
              success := id :: (Svc.batchSwapVariables s1 rest targetCollectionId).1.success },
             (Svc.batchSwapVariables s1 rest targetCollectionId).2) := by
        rw [Svc.batchSwapVariables, hswap]
      obtain ⟨ih1, ih2, ih3⟩ := ih s1
      rw [heq]
      refine ⟨List.Sublist.cons₂ id ih1, List.Sublist.cons _ ih2, fun x => ?_⟩
      simp only [List.count_cons]
      rw [← ih3 x]
      ring
    | (.error e, s1) =>
      have heq : Svc.batchSwapVariables s (id :: rest) targetCollectionId
          = ({ (Svc.batchSwapVariables s1 rest targetCollectionId).1 with
              failed := (id, e) :: (Svc.batchSwapVariables s1 rest targetCollectionId).1.failed },
             (Svc.batchSwapVariables s1 rest targetCollectionId).2) := by
        rw [Svc.batchSwapVariables, hswap]
      obtain ⟨ih1, ih2, ih3⟩ := ih s1
      rw [heq]
      refine ⟨List.Sublist.cons _ ih1, ?_, fun x => ?_⟩
      · simpa using List.Sublist.cons₂ id ih2
      · simp only [List.map_cons, List.count_cons]
        rw [← ih3 x]
        ring

/-! ## Claim C8 — toggleNodeCollapsed: involution and not-found no-op -/

mutual

theorem toggle_toggle_forest (tree : List TreeNode) (nodeId : String) :
    TreeBuilder.toggleNodeCollapsed (TreeBuilder.toggleNodeCollapsed tree nodeId)
      nodeId = tree := by
  match tree with
  | [] => rfl
  | n :: rest =>
    rw [TreeBuilder.toggleNodeCollapsed, TreeBuilder.toggleNodeCollapsed]
    rw [toggle_toggle_one, toggle_toggle_forest]
termination_by sizeOf tree

theorem toggle_toggle_one (n : TreeNode) (nodeId : String) :
    TreeBuilder.toggleOne (TreeBuilder.toggleOne n nodeId) nodeId = n := by
  cases n with
  | mk i nm t l c ch ind v pp children =>
    cases children with
    | none =>
      by_cases h : (i == nodeId) = true
      · rw [TreeBuilder.toggleOne, if_pos h]
        rw [TreeBuilder.toggleOne, if_pos h, Bool.not_not]
      · rw [TreeBuilder.toggleOne, if_neg h]
        rw [TreeBuilder.toggleOne, if_neg h]
    | some cs =>
      by_cases h : (i == nodeId) = true
      · rw [TreeBuilder.toggleOne, if_pos h]
        rw [TreeBuilder.toggleOne, if_pos h, Bool.not_not]
      · rw [TreeBuilder.toggleOne, if_neg h]
        rw [TreeBuilder.toggleOne, if_neg h, toggle_toggle_forest]
termination_by sizeOf n

end

mutual

theorem toggle_notfound_forest (tree : List TreeNode) (nodeId : String)
    (h : containsId tree nodeId = false) :
    TreeBuilder.toggleNodeCollapsed tree nodeId = tree := by
  match tree with
  | [] => rfl
  | n :: rest =>
    rw [containsId, Bool.or_eq_false_iff] at h
    rw [TreeBuilder.toggleNodeCollapsed, toggle_notfound_one n nodeId h.1,
      toggle_notfound_forest rest nodeId h.2]
termination_by sizeOf tree

theorem toggle_notfound_one (n : TreeNode) (nodeId : String)
    (h : containsIdOne n nodeId = false) :
    TreeBuilder.toggleOne n nodeId = n := by
  cases n with
  | mk i nm t l c ch ind v pp children =>
    cases children with
    | none =>
      rw [containsIdOne] at h
      rw [TreeBuilder.toggleOne, if_neg (by simp [h])]
    | some cs =>
      rw [containsIdOne, Bool.or_eq_false_iff] at h
      rw [TreeBuilder.toggleOne, if_neg (by simp [h.1]),
        toggle_notfound_forest cs nodeId h.2]
termination_by sizeOf n

end

/-- C8: toggling the collapsed flag twice with the same node id restores the
forest exactly (involution in content), and when no node of the forest
carries the id the toggle is a content no-op. -/
theorem c8_toggle_involution_and_noop :
    (∀ (tree : List TreeNode) (nodeId : String),
      TreeBuilder.toggleNodeCollapsed (TreeBuilder.toggleNodeCollapsed tree nodeId)
        nodeId = tree) ∧
    (∀ (tree : List TreeNode) (nodeId : String), containsId tree nodeId = false →
      TreeBuilder.toggleNodeCollapsed tree nodeId = tree) :=
  ⟨toggle_toggle_forest, toggle_notfound_forest⟩

/-- A small two-level forest used as concrete input by several witnesses. -/
def demoForest : List TreeNode :=
  [.mk "color" "color" "group" 0 true false false none none (some
    [.mk "color/bg" "bg" "group" 1 true false false none none (some
      [.mk "color/bg/default" "default" "variable" 2 true false false
        (some "v1") none none,
       .mk "color/bg/hover" "hover" "variable" 2 true true false
        (some "v2") none none]),
     .mk "color/fg" "fg" "variable" 1 true false false (some "v3") none none])]

theorem c8_witness :
    TreeBuilder.toggleNodeCollapsed
      (TreeBuilder.toggleNodeCollapsed demoForest "color/bg") "color/bg"
      = demoForest ∧
    TreeBuilder.toggleNodeCollapsed demoForest "missing" = demoForest :=
  ⟨c8_toggle_involution_and_noop.1 demoForest "color/bg",
   c8_toggle_involution_and_noop.2 demoForest "missing" rfl⟩

/-! ## Claim C7 — filterTree: whitespace no-op and idempotence -/

mutual

theorem filter_idem_forest (lq : String) (tree : List TreeNode) :
    TreeBuilder.filterForest lq (TreeBuilder.filterForest lq tree)
      = TreeBuilder.filterForest lq tree := by
  match tree with
  | [] => rfl
  | n :: rest =>
    rw [TreeBuilder.filterForest]
    match hm : TreeBuilder.matchNode lq n with
    | some m =>
      rw [TreeBuilder.filterForest, filter_idem_node lq n m hm,
        filter_idem_forest lq rest]
    | none =>
      rw [filter_idem_forest lq rest]
termination_by sizeOf tree

theorem filter_idem_node (lq : String) (n m : TreeNode)
    (h : TreeBuilder.matchNode lq n = some m) :
    TreeBuilder.matchNode lq m = some m := by
  cases n with
  | mk i nm t l c ch ind v pp children =>
    cases children with
    | some cs =>
      by_cases ht : (t == "variable") = true
      · by_cases hnm : strContains (jsToLower i) lq = true
        · rw [TreeBuilder.matchNode, if_pos ht, if_pos hnm] at h
          cases h
          rw [TreeBuilder.matchNode, if_pos ht, if_pos hnm]
        · rw [TreeBuilder.matchNode, if_pos ht, if_neg hnm] at h
          cases h
      · by_cases hc : (!(TreeBuilder.filterForest lq cs).isEmpty
            || strContains (jsToLower i) lq) = true
        · rw [TreeBuilder.matchNode, if_neg ht, if_pos hc] at h
          cases h
          rw [TreeBuilder.matchNode, if_neg ht,
            if_pos (by rw [filter_idem_forest lq cs]; exact hc),
            filter_idem_forest lq cs]
        · rw [TreeBuilder.matchNode, if_neg ht, if_neg hc] at h
          cases h
    | none =>
      by_cases ht : (t == "variable") = true
      · by_cases hnm : strContains (jsToLower i) lq = true
        · rw [TreeBuilder.matchNode, if_pos ht, if_pos hnm] at h
          cases h
          rw [TreeBuilder.matchNode, if_pos ht, if_pos hnm]
        · rw [TreeBuilder.matchNode, if_pos ht, if_neg hnm] at h
          cases h
      · by_cases hc : (!(([] : List TreeNode)).isEmpty
            || strContains (jsToLower i) lq) = true
        · rw [TreeBuilder.matchNode, if_neg ht, if_pos hc] at h
          cases h
          rw [TreeBuilder.matchNode, if_neg ht,
            if_pos (by rw [show TreeBuilder.filterForest lq [] = [] from rfl]; exact hc),
            show TreeBuilder.filterForest lq [] = [] from rfl]
        · rw [TreeBuilder.matchNode, if_neg ht, if_neg hc] at h
          cases h
termination_by sizeOf n

end

/-- C7: `filterTree` with an empty or whitespace-only query returns the input
forest itself, and `filterTree` is idempotent in content for every query.
The embedding is a pure function of its arguments, so the input forest is
never mutated by a call. -/
theorem c7_filterTree_noop_and_idempotent :
    (∀ (tree : List TreeNode) (query : String), jsTrim query = "" →
      TreeBuilder.filterTree tree query = tree) ∧
    (∀ (tree : List TreeNode) (query : String),
      TreeBuilder.filterTree (TreeBuilder.filterTree tree query) query
        = TreeBuilder.filterTree tree query) := by
  constructor
  · intro tree query h
    rw [TreeBuilder.filterTree, if_pos (by simp [h])]
  · intro tree query
    by_cases h : (jsTrim query == "") = true
    · simp only [TreeBuilder.filterTree, if_pos h]
    · simp only [TreeBuilder.filterTree, if_neg h]
      exact filter_idem_forest _ _

theorem c7_witness :
    TreeBuilder.filterTree demoForest "  " = demoForest ∧
    TreeBuilder.filterTree (TreeBuilder.filterTree demoForest "bg") "bg"
      = TreeBuilder.filterTree demoForest "bg" :=
  ⟨c7_filterTree_noop_and_idempotent.1 demoForest "  " rfl,
   c7_filterTree_noop_and_idempotent.2 demoForest "bg"⟩

/-! ## Claim C9 — degenerate names in the code.js buildTree -/

/-- C9 counterexample: the name `"a/"` (trailing separator) is neither
skipped nor treated as a single-segment leaf by the `code.js` `buildTree`:
the build keeps the non-empty leading segment as a childless **group** node
and the variable contributes no `"variable"` node at all (its id is lost),
so no single uniform skip-or-leaf policy is applied. -/
theorem c9_counterexample_trailing_separator :
    CodeJs.buildTree [⟨"v1", some "a/"⟩]
      = [.mk "a" "a" "group" 0 true false false none none (some [])] ∧
    countVariableNodes (CodeJs.buildTree [⟨"v1", some "a/"⟩]) = 0 ∧
    CodeJs.buildTree [⟨"v1", some "a/"⟩] ≠ CodeJs.buildTree [] := by
  refine ⟨rfl, rfl, ?_⟩
  rw [show CodeJs.buildTree [⟨"v1", some "a/"⟩]
    = [.mk "a" "a" "group" 0 true false false none none (some [])] from rfl]
  exact List.cons_ne_nil _ _

/-- C9 (amended): the `code.js` build never raises, but applies two distinct
policies: a variable whose `name` is missing (or not a string) is skipped
entirely, wherever it occurs in the input; a name with empty segments has
each empty segment dropped individually while the surviving segments still
create path nodes keeping their original segment index as `level` — so
`"a/"` leaves an orphaned childless group and no leaf, and `"a//b"` yields
the leaf `a/b` at level 2 under group `a`. -/
theorem c9_degenerate_names_policy :
    (∀ (v : CodeJs.JVariable) (vars1 vars2 : List CodeJs.JVariable),
      v.name = none →
      CodeJs.buildTree (vars1 ++ v :: vars2) = CodeJs.buildTree (vars1 ++ vars2)) ∧
    CodeJs.buildTree [⟨"v1", some "a/"⟩]
      = [.mk "a" "a" "group" 0 true false false none none (some [])] ∧
    CodeJs.buildTree [⟨"v1", some "a//b"⟩]
      = [.mk "a" "a" "group" 0 true false false none none (some
          [.mk "a/b" "b" "variable" 2 true false false (some "v1")
            (some "a") none])] := by
  refine ⟨?_, rfl, rfl⟩
  intro v vars1 vars2 hname
  unfold CodeJs.buildTree
  rw [List.foldl_append, List.foldl_append, List.foldl_cons, hname]

theorem c9_witness :
    CodeJs.buildTree ([] ++ (⟨"v0", none⟩ : CodeJs.JVariable) :: [⟨"v1", some "x"⟩])
      = CodeJs.buildTree ([] ++ [⟨"v1", some "x"⟩]) :=
  c9_degenerate_names_policy.1 ⟨"v0", none⟩ [] [⟨"v1", some "x"⟩] rfl

/-! ## Claim C5 — updateNodeChecked preserves the tri-state invariant -/

theorem wfForest_iff (f : List TreeNode) :
    wfForest f = true ↔ ∀ n ∈ f, wfNode n = true := by
  induction f with
  | nil => simp [wfForest]
  | cons n rest ih => rw [wfForest, Bool.and_eq_true, ih]; simp

theorem triStateForest_iff (f : List TreeNode) :
    triStateForest f = true ↔ ∀ n ∈ f, triStateNode n = true := by
  induction f with
  | nil => simp [triStateForest]
  | cons n rest ih => rw [triStateForest, Bool.and_eq_true, ih]; simp

theorem allSetForest_iff (f : List TreeNode) (v : Bool) :
    allSetForest f v = true ↔ ∀ n ∈ f, allSetOne n v = true := by
  induction f with
  | nil => simp [allSetForest]
  | cons n rest ih => rw [allSetForest, Bool.and_eq_true, ih]; simp

theorem leafChecks_cons (n : TreeNode) (rest : List TreeNode) :
    leafChecks (n :: rest) = leafChecksOne n ++ leafChecks rest := rfl

theorem mem_leafChecks (f : List TreeNode) (b : Bool) :
    b ∈ leafChecks f ↔ ∃ n ∈ f, b ∈ leafChecksOne n := by
  induction f with
  | nil => simp [leafChecks]
  | cons n rest ih =>
    rw [leafChecks_cons, List.mem_append, ih]
    simp

/-- From the tri-state invariant: a node's `checked` equals the conjunction
of its descendant-leaf checks (for a leaf this is the node's own flag). -/
theorem checked_eq_leafChecks (n : TreeNode) (hts : triStateNode n = true) :
    n.checked = (leafChecksOne n).all id := by
  cases n with
  | mk i nm t l c ch ind v pp children =>
    cases children with
    | none => simp [leafChecksOne, TreeNode.checked]
    | some cs =>
      rw [triStateNode, Bool.and_eq_true, Bool.and_eq_true] at hts
      exact beq_iff_eq.mp hts.1.1

/-- From the tri-state invariant: a node's `indeterminate` equals "some
descendant leaf is checked and some is not". -/
theorem indet_eq_leafChecks (n : TreeNode) (hts : triStateNode n = true) :
    n.indeterminate
      = ((leafChecksOne n).any id && (leafChecksOne n).any (fun b => !b)) := by
  cases n with
  | mk i nm t l c ch ind v pp children =>
    cases children with
    | none =>
      rw [triStateNode, Bool.and_eq_true] at hts
      have h2 := beq_iff_eq.mp hts.2
      simp only [leafChecksOne, TreeNode.indeterminate, TreeNode.checked] at h2 ⊢
      simpa using h2
    | some cs =>
      rw [triStateNode, Bool.and_eq_true, Bool.and_eq_true] at hts
      exact beq_iff_eq.mp hts.1.2

/-- Under well-formedness every node has at least one descendant leaf. -/
theorem leafChecksOne_ne_nil (n : TreeNode) (hwf : wfNode n = true) :
    leafChecksOne n ≠ [] := by
  match n with
  | .mk i nm t l c ch ind v pp none => simp [leafChecksOne]
  | .mk i nm t l c ch ind v pp (some []) =>
    rw [wfNode] at hwf
    simp at hwf
  | .mk i nm t l c ch ind v pp (some (c1 :: rest)) =>
    rw [wfNode, Bool.and_eq_true, Bool.and_eq_true] at hwf
    have hwf1 : wfNode c1 = true :=
      (wfForest_iff _).mp hwf.2 c1 (List.mem_cons_self _ _)
    have h1 := leafChecksOne_ne_nil c1 hwf1
    rw [leafChecksOne, leafChecks_cons]
    simp [h1]
termination_by sizeOf n

/-- A non-empty well-formed forest has at least one descendant leaf. -/
theorem leafChecks_ne_nil (f : List TreeNode) (hwf : wfForest f = true)
    (hne : f ≠ []) : leafChecks f ≠ [] := by
  match f, hne with
  | n :: rest, _ =>
    rw [leafChecks_cons]
    have h1 := leafChecksOne_ne_nil n ((wfForest_iff _).mp hwf n (List.mem_cons_self _ _))
    simp [h1]

/-- Folding of a constant non-empty Bool list. -/
theorem all_any_of_const (L : List Bool) (v : Bool) (hL : ∀ b ∈ L, b = v)
    (hne : L ≠ []) :
    (L.all id) = v ∧ (L.any id) = v ∧ (L.any (fun b => !b)) = !v := by
  obtain ⟨b0, hb0⟩ := List.exists_mem_of_ne_nil L hne
  cases v with
  | true =>
    refine ⟨?_, ?_, ?_⟩
    · simp only [List.all_eq_true, id]
      exact fun b hb => hL b hb
    · simp only [List.any_eq_true, id]
      exact ⟨b0, hb0, hL b0 hb0⟩
    · simp only [Bool.not_true, List.any_eq_false]
      intro b hb
      simp [hL b hb]
  | false =>
    refine ⟨?_, ?_, ?_⟩
    · simp only [List.all_eq_false]
      exact ⟨b0, hb0, by simp [hL b0 hb0]⟩
    · simp only [List.any_eq_false]
      intro b hb
      simp [hL b hb]
    · simp only [Bool.not_false, List.any_eq_true]
      exact ⟨b0, hb0, by simp [hL b0 hb0]⟩

/-- In a fully set forest, every descendant-leaf check equals the set value. -/
theorem allSet_leafChecks (f : List TreeNode) (v : Bool)
    (h : allSetForest f v = true) : ∀ b ∈ leafChecks f, b = v := by
  match f with
  | [] => intro b hb; cases hb
  | .mk i nm t l c ch ind vr pp none :: rest =>
    rw [allSetForest, Bool.and_eq_true] at h
    intro b hb
    rw [leafChecks_cons, List.mem_append] at hb
    rcases hb with hb1 | hb2
    · rw [allSetOne, Bool.and_eq_true] at h
      rw [leafChecksOne, List.mem_singleton] at hb1
      rw [hb1]
      exact beq_iff_eq.mp h.1.1
    · exact allSet_leafChecks rest v h.2 b hb2
  | .mk i nm t l c ch ind vr pp (some cs) :: rest =>
    rw [allSetForest, Bool.and_eq_true] at h
    intro b hb
    rw [leafChecks_cons, List.mem_append] at hb
    rcases hb with hb1 | hb2
    · rw [allSetOne, Bool.and_eq_true, Bool.and_eq_true] at h
      rw [leafChecksOne] at hb1
      exact allSet_leafChecks cs v h.1.2 b hb1
    · exact allSet_leafChecks rest v h.2 b hb2
termination_by sizeOf f

/-- A fully set forest satisfies the target clause for every node id. -/
theorem allSet_targetSet (f : List TreeNode) (nodeId : String) (v : Bool)
    (h : allSetForest f v = true) : targetSetForest f nodeId v = true := by
  match f with
  | [] => rfl
  | .mk i nm t l c ch ind vr pp none :: rest =>
    rw [allSetForest, Bool.and_eq_true] at h
    rw [targetSetForest, Bool.and_eq_true]
    refine ⟨?_, allSet_targetSet rest nodeId v h.2⟩
    rw [allSetOne, Bool.and_eq_true] at h
    rw [targetSetOne]
    by_cases hid : (i == nodeId) = true
    · rw [if_pos hid, Bool.and_eq_true]
      exact h.1
    · rw [if_neg hid]
  | .mk i nm t l c ch ind vr pp (some cs) :: rest =>
    rw [allSetForest, Bool.and_eq_true] at h
    rw [targetSetForest, Bool.and_eq_true]
    refine ⟨?_, allSet_targetSet rest nodeId v h.2⟩
    rw [allSetOne, Bool.and_eq_true, Bool.and_eq_true] at h
    rw [targetSetOne, Bool.and_eq_true]
    refine ⟨?_, allSet_targetSet cs nodeId v h.1.2⟩
    by_cases hid : (i == nodeId) = true
    · rw [if_pos hid, Bool.and_eq_true, Bool.and_eq_true]
      exact ⟨⟨h.1.1.1, h.1.1.2⟩, h.1.2⟩
    · rw [if_neg hid]
termination_by sizeOf f

theorem updateAllChildren_length (cs : List TreeNode) (v : Bool) :
    (TreeBuilder.updateAllChildren cs v).length = cs.length := by
  induction cs with
  | nil => rw [TreeBuilder.updateAllChildren]
  | cons n rest ih =>
    rw [TreeBuilder.updateAllChildren, List.length_cons, List.length_cons, ih]

theorem updateNodeChecked_length (f : List TreeNode) (nodeId : String) (v : Bool) :
    (TreeBuilder.updateNodeChecked f nodeId v).length = f.length := by
  induction f with
  | nil => rfl
  | cons n rest ih =>
    rw [TreeBuilder.updateNodeChecked, List.length_cons, List.length_cons, ih]

/-- The flags `updateNodeChecked` recomputes for a non-target group from its
(updated) children agree with the tri-state invariant over the children's
descendant leaves, provided the children are well-formed and themselves
satisfy the invariant. -/
theorem recompute_flags (cs : List TreeNode)
    (hwf : wfForest cs = true) (hts : triStateForest cs = true) :
    (((cs.filter (fun x => x.checked)).length == cs.length)
      = (leafChecks cs).all id) ∧
    (((decide (0 < (cs.filter (fun x => x.checked)).length)
        && decide ((cs.filter (fun x => x.checked)).length < cs.length))
      || decide (0 < (cs.filter (fun x => x.indeterminate)).length))
      = ((leafChecks cs).any id && (leafChecks cs).any (fun b => !b))) := by
  have hwall := (wfForest_iff cs).mp hwf
  have htall := (triStateForest_iff cs).mp hts
  have hposc : 0 < (cs.filter (fun x => x.checked)).length ↔
      ∃ n ∈ cs, n.checked = true := by
    rw [← List.countP_eq_length_filter]
    exact List.countP_pos_iff
  have hposi : 0 < (cs.filter (fun x => x.indeterminate)).length ↔
      ∃ n ∈ cs, n.indeterminate = true := by
    rw [← List.countP_eq_length_filter]
    exact List.countP_pos_iff
  have halliff : ((cs.filter (fun x => x.checked)).length = cs.length) ↔
      ∀ n ∈ cs, n.checked = true := List.filter_length_eq_length
  have hltc : (cs.filter (fun x => x.checked)).length < cs.length ↔
      ∃ n ∈ cs, n.checked = false := by
    have hle := List.length_filter_le (fun x => x.checked) cs
    constructor
    · intro hlt
      by_contra hno
      push_neg at hno
      have : ∀ n ∈ cs, n.checked = true := by
        intro n hn
        have := hno n hn
        cases hcn : n.checked with
        | true => rfl
        | false => exact absurd hcn this
      exact absurd (halliff.mpr this) (Nat.ne_of_lt hlt)
    · rintro ⟨n, hn, hcn⟩
      rcases Nat.lt_or_ge (cs.filter (fun x => x.checked)).length cs.length with h | h
      · exact h
      · have heq : (cs.filter (fun x => x.checked)).length = cs.length :=
          Nat.le_antisymm hle h
        have := halliff.mp heq n hn
        rw [hcn] at this
        cases this
  constructor
  · rw [Bool.eq_iff_iff, beq_iff_eq, halliff, List.all_eq_true]
    constructor
    · intro hall b hb
      obtain ⟨n, hn, hbn⟩ := (mem_leafChecks cs b).mp hb
      have hc := checked_eq_leafChecks n (htall n hn)
      have h2 : (leafChecksOne n).all id = true := by rw [← hc]; exact hall n hn
      simpa using (List.all_eq_true.mp h2) b hbn
    · intro hall n hn
      rw [checked_eq_leafChecks n (htall n hn), List.all_eq_true]
      intro b hbn
      exact hall b ((mem_leafChecks cs b).mpr ⟨n, hn, hbn⟩)
  · rw [Bool.eq_iff_iff]
    simp only [Bool.or_eq_true, Bool.and_eq_true, decide_eq_true_iff]
    rw [hposc, hposi, hltc, List.any_eq_true, List.any_eq_true]
    simp only [id, Bool.not_eq_true']
    constructor
    · rintro (⟨⟨n1, hn1, hc1⟩, ⟨n2, hn2, hc2⟩⟩ | ⟨n, hn, hi⟩)
      · constructor
        · have hc := checked_eq_leafChecks n1 (htall n1 hn1)
          have h2 : (leafChecksOne n1).all id = true := by rw [← hc]; exact hc1
          obtain ⟨b0, hb0⟩ := List.exists_mem_of_ne_nil _
            (leafChecksOne_ne_nil n1 (hwall n1 hn1))
          refine ⟨b0, (mem_leafChecks cs b0).mpr ⟨n1, hn1, hb0⟩, ?_⟩
          simpa using (List.all_eq_true.mp h2) b0 hb0
        · have hc := checked_eq_leafChecks n2 (htall n2 hn2)
          have h2 : (leafChecksOne n2).all id = false := by rw [← hc]; exact hc2
          obtain ⟨b0, hb0, hb0f⟩ := List.all_eq_false.mp h2
          refine ⟨b0, (mem_leafChecks cs b0).mpr ⟨n2, hn2, hb0⟩, ?_⟩
          simpa using hb0f
      · have hi2 := indet_eq_leafChecks n (htall n hn)
        rw [hi] at hi2
        have hi3 := hi2.symm
        rw [Bool.and_eq_true, List.any_eq_true, List.any_eq_true] at hi3
        obtain ⟨⟨b1, hb1, hb1t⟩, ⟨b2, hb2, hb2f⟩⟩ := hi3
        exact ⟨⟨b1, (mem_leafChecks cs b1).mpr ⟨n, hn, hb1⟩, by simpa using hb1t⟩,
          ⟨b2, (mem_leafChecks cs b2).mpr ⟨n, hn, hb2⟩, by simpa using hb2f⟩⟩
    · rintro ⟨⟨b1, hb1L, hb1⟩, ⟨b2, hb2L, hb2⟩⟩
      obtain ⟨n1, hn1, hbn1⟩ := (mem_leafChecks cs b1).mp hb1L
      obtain ⟨n2, hn2, hbn2⟩ := (mem_leafChecks cs b2).mp hb2L
      by_cases h1f : (leafChecksOne n1).any (fun b => !b) = true
      · right
        refine ⟨n1, hn1, ?_⟩
        rw [indet_eq_leafChecks n1 (htall n1 hn1), Bool.and_eq_true]
        refine ⟨?_, h1f⟩
        rw [List.any_eq_true]
        exact ⟨b1, hbn1, by simpa using hb1⟩
      · left
        have h1f2 : (leafChecksOne n1).any (fun b => !b) = false := by
          cases hx : (leafChecksOne n1).any (fun b => !b) with
          | true => exact absurd hx h1f
          | false => rfl
        have hall1 : (leafChecksOne n1).all id = true := by
          rw [List.all_eq_true]
          intro b hb
          have := List.any_eq_false.mp h1f2 b hb
          simpa using this
        have hall2 : (leafChecksOne n2).all id = false := by
          rw [List.all_eq_false]
          exact ⟨b2, hbn2, by simp [hb2]⟩
        refine ⟨⟨n1, hn1, ?_⟩, ⟨n2, hn2, ?_⟩⟩
        · rw [checked_eq_leafChecks n1 (htall n1 hn1)]
          exact hall1
        · rw [checked_eq_leafChecks n2 (htall n2 hn2)]
          exact hall2

mutual

theorem updateAll_spec_forest (cs : List TreeNode) (v : Bool)
    (hwf : wfForest cs = true) :
    wfForest (TreeBuilder.updateAllChildren cs v) = true ∧
    allSetForest (TreeBuilder.updateAllChildren cs v) v = true ∧
    triStateForest (TreeBuilder.updateAllChildren cs v) = true := by
  match cs with
  | [] =>
    rw [TreeBuilder.updateAllChildren]
    exact ⟨rfl, rfl, rfl⟩
  | n :: rest =>
    rw [wfForest, Bool.and_eq_true] at hwf
    obtain ⟨h1, h2, h3⟩ := updateAll_spec_one n v hwf.1
    obtain ⟨g1, g2, g3⟩ := updateAll_spec_forest rest v hwf.2
    rw [TreeBuilder.updateAllChildren, wfForest, allSetForest, triStateForest,
      Bool.and_eq_true, Bool.and_eq_true, Bool.and_eq_true]
    exact ⟨⟨h1, g1⟩, ⟨h2, g2⟩, ⟨h3, g3⟩⟩
termination_by sizeOf cs

theorem updateAll_spec_one (n : TreeNode) (v : Bool) (hwf : wfNode n = true) :
    wfNode (TreeBuilder.updateAllOne n v) = true ∧
    allSetOne (TreeBuilder.updateAllOne n v) v = true ∧
    triStateNode (TreeBuilder.updateAllOne n v) = true := by
  match n with
  | .mk i nm t l c ch ind vr pp none =>
    rw [wfNode] at hwf
    rw [TreeBuilder.updateAllOne]
    refine ⟨?_, ?_, ?_⟩
    · rw [wfNode]
      exact hwf
    · rw [allSetOne]
      simp
    · rw [triStateNode]
      simp
  | .mk i nm t l c ch ind vr pp (some cs) =>
    rw [wfNode, Bool.and_eq_true, Bool.and_eq_true] at hwf
    obtain ⟨⟨hg, hne⟩, hwfcs⟩ := hwf
    obtain ⟨g1, g2, g3⟩ := updateAll_spec_forest cs v hwfcs
    have hcsne : cs ≠ [] := by
      intro h
      rw [h] at hne
      simp at hne
    have hnil : TreeBuilder.updateAllChildren cs v ≠ [] := by
      intro h
      have hlen := updateAllChildren_length cs v
      rw [h] at hlen
      exact hcsne (List.eq_nil_of_length_eq_zero hlen.symm)
    rw [TreeBuilder.updateAllOne]
    refine ⟨?_, ?_, ?_⟩
    · rw [wfNode, Bool.and_eq_true, Bool.and_eq_true]
      refine ⟨⟨hg, ?_⟩, g1⟩
      cases hemp : (TreeBuilder.updateAllChildren cs v).isEmpty with
      | true => exact absurd (List.isEmpty_iff.mp hemp) hnil
      | false => rfl
    · rw [allSetOne, Bool.and_eq_true, Bool.and_eq_true]
      exact ⟨⟨by simp, rfl⟩, g2⟩
    · rw [triStateNode, Bool.and_eq_true, Bool.and_eq_true]
      have hL := allSet_leafChecks _ v g2
      have hLne := leafChecks_ne_nil _ g1 hnil
      obtain ⟨ha, hb, hc⟩ := all_any_of_const _ v hL hLne
      refine ⟨⟨?_, ?_⟩, g3⟩
      · rw [ha]
        simp
      · rw [hb, hc]
        simp
termination_by sizeOf n

end

mutual

theorem updateChecked_spec_forest (f : List TreeNode) (nodeId : String) (v : Bool)
    (hwf : wfForest f = true) (hts : triStateForest f = true) :
    wfForest (TreeBuilder.updateNodeChecked f nodeId v) = true ∧
    triStateForest (TreeBuilder.updateNodeChecked f nodeId v) = true ∧
    targetSetForest (TreeBuilder.updateNodeChecked f nodeId v) nodeId v = true := by
  match f with
  | [] =>
    rw [TreeBuilder.updateNodeChecked]
    exact ⟨rfl, rfl, rfl⟩
  | n :: rest =>
    rw [wfForest, Bool.and_eq_true] at hwf
    rw [triStateForest, Bool.and_eq_true] at hts
    obtain ⟨h1, h2, h3⟩ := updateChecked_spec_one n nodeId v hwf.1 hts.1
    obtain ⟨g1, g2, g3⟩ := updateChecked_spec_forest rest nodeId v hwf.2 hts.2
    rw [TreeBuilder.updateNodeChecked, wfForest, triStateForest, targetSetForest,
      Bool.and_eq_true, Bool.and_eq_true, Bool.and_eq_true]
    exact ⟨⟨h1, g1⟩, ⟨h2, g2⟩, ⟨h3, g3⟩⟩
termination_by sizeOf f

theorem updateChecked_spec_one (n : TreeNode) (nodeId : String) (v : Bool)
    (hwf : wfNode n = true) (hts : triStateNode n = true) :
    wfNode (TreeBuilder.updateNodeOne n nodeId v) = true ∧
    triStateNode (TreeBuilder.updateNodeOne n nodeId v) = true ∧
    targetSetOne (TreeBuilder.updateNodeOne n nodeId v) nodeId v = true := by
  match n with
  | .mk i nm t l c ch ind vr pp none =>
    rw [wfNode] at hwf
    by_cases hid : (i == nodeId) = true
    · rw [TreeBuilder.updateNodeOne, if_pos hid]
      refine ⟨by rw [wfNode]; exact hwf, by rw [triStateNode]; simp, ?_⟩
      rw [targetSetOne, if_pos hid]
      simp
    · rw [TreeBuilder.updateNodeOne, if_neg hid]
      refine ⟨by rw [wfNode]; exact hwf, ?_, ?_⟩
      · exact hts
      · rw [targetSetOne, if_neg hid]
  | .mk i nm t l c ch ind vr pp (some cs) =>
    rw [wfNode, Bool.and_eq_true, Bool.and_eq_true] at hwf
    obtain ⟨⟨hg, hne⟩, hwfcs⟩ := hwf
    rw [triStateNode, Bool.and_eq_true, Bool.and_eq_true] at hts
    obtain ⟨⟨hch, hind⟩, htscs⟩ := hts
    have hcsne : cs ≠ [] := by
      intro h
      rw [h] at hne
      simp at hne
    by_cases hid : (i == nodeId) = true
    · rw [TreeBuilder.updateNodeOne, if_pos hid]
      obtain ⟨g1, g2, g3⟩ := updateAll_spec_forest cs v hwfcs
      have hnil : TreeBuilder.updateAllChildren cs v ≠ [] := by
        intro h
        have hlen := updateAllChildren_length cs v
        rw [h] at hlen
        exact hcsne (List.eq_nil_of_length_eq_zero hlen.symm)
      refine ⟨?_, ?_, ?_⟩
      · rw [wfNode, Bool.and_eq_true, Bool.and_eq_true]
        refine ⟨⟨hg, ?_⟩, g1⟩
        cases hemp : (TreeBuilder.updateAllChildren cs v).isEmpty with
        | true => exact absurd (List.isEmpty_iff.mp hemp) hnil
        | false => rfl
      · rw [triStateNode, Bool.and_eq_true, Bool.and_eq_true]
        have hL := allSet_leafChecks _ v g2
        have hLne := leafChecks_ne_nil _ g1 hnil
        obtain ⟨ha, hb, hc⟩ := all_any_of_const _ v hL hLne
        refine ⟨⟨?_, ?_⟩, g3⟩
        · rw [ha]
          simp
        · rw [hb, hc]
          simp
      · rw [targetSetOne, Bool.and_eq_true]
        constructor
        · rw [if_pos hid, Bool.and_eq_true, Bool.and_eq_true]
          exact ⟨⟨by simp, rfl⟩, g2⟩
        · exact allSet_targetSet _ nodeId v g2
    · rw [TreeBuilder.updateNodeOne, if_neg hid]
      obtain ⟨g1, g2, g3⟩ := updateChecked_spec_forest cs nodeId v hwfcs htscs
      have hlen := updateNodeChecked_length cs nodeId v
      have hnil : TreeBuilder.updateNodeChecked cs nodeId v ≠ [] := by
        intro h
        rw [h] at hlen
        exact hcsne (List.eq_nil_of_length_eq_zero hlen.symm)
      obtain ⟨r1, r2⟩ := recompute_flags (TreeBuilder.updateNodeChecked cs nodeId v) g1 g2
      refine ⟨?_, ?_, ?_⟩
      · rw [wfNode, Bool.and_eq_true, Bool.and_eq_true]
        refine ⟨⟨hg, ?_⟩, g1⟩
        cases hemp : (TreeBuilder.updateNodeChecked cs nodeId v).isEmpty with
        | true => exact absurd (List.isEmpty_iff.mp hemp) hnil
        | false => rfl
      · rw [triStateNode, Bool.and_eq_true, Bool.and_eq_true]
        refine ⟨⟨?_, ?_⟩, g2⟩
        · rw [r1]
          simp
        · rw [r2]
          simp
      · rw [targetSetOne, Bool.and_eq_true, if_neg hid]
        exact ⟨rfl, g3⟩
termination_by sizeOf n

end

/-- C5: for every well-formed forest (the specification's data-model
invariant: a node is a group iff it has one or more children) satisfying the
tri-state invariant, and every node id and Boolean value, the forest returned
by `updateNodeChecked` satisfies the tri-state invariant — every node's
`checked` is true iff all of its descendant leaves are checked, and its
`indeterminate` is true iff both a checked and an unchecked descendant leaf
exist (so `checked` is then false) — and every node carrying the target id
has received the given value with `indeterminate` false and, if a group, its
whole subtree set to that value. -/
theorem c5_updateNodeChecked_tristate (forest : List TreeNode) (nodeId : String)
    (v : Bool) (hwf : wfForest forest = true)
    (hts : triStateForest forest = true) :
    triStateForest (TreeBuilder.updateNodeChecked forest nodeId v) = true ∧
    targetSetForest (TreeBuilder.updateNodeChecked forest nodeId v) nodeId v
      = true :=
  ⟨(updateChecked_spec_forest forest nodeId v hwf hts).2.1,
   (updateChecked_spec_forest forest nodeId v hwf hts).2.2⟩

theorem c5_witness :
    triStateForest
      (TreeBuilder.updateNodeChecked scenarioExpected "color/bg" true) = true ∧
    targetSetForest
      (TreeBuilder.updateNodeChecked scenarioExpected "color/bg" true)
      "color/bg" true = true :=
  c5_updateNodeChecked_tristate scenarioExpected "color/bg" true rfl rfl
